import Mathlib

/-!
Verification of the UOM Results Ranking tool's core pipeline: a shallow
embedding of the grade-merge (`merge_grades_with_department`), the SGPA/rank
computation (`calculate_sgpa_and_rank`), and the text extraction
(`extract_module_info`, `parse_grades`) from `modules/data_processor.py`,
`modules/pdf_processor.py` and `modules/config.py`, together with the
orchestration step of `app.py` that decides whether a merge happens.

Rational arithmetic is embedded with kernel-computable operations built from
`mkRat`, `Rat.num` and `Rat.den`; bridge lemmas identify them with the field
operations of `ℚ` so that ordinary algebraic reasoning applies.
-/

namespace UOM

/-! ## Kernel-computable rational arithmetic -/

/-- Executable addition on `ℚ` (cross-multiplication, then normalisation). -/
def qadd (a b : ℚ) : ℚ := mkRat (a.num * b.den + b.num * a.den) (a.den * b.den)

/-- Executable multiplication on `ℚ`. -/
def qmul (a b : ℚ) : ℚ := mkRat (a.num * b.num) (a.den * b.den)

/-- Executable inverse on `ℚ` (`qinv 0 = 0`, as for `Rat.inv`). -/
def qinv (b : ℚ) : ℚ :=
  if 0 ≤ b.num then mkRat (b.den : ℤ) b.num.natAbs
  else mkRat (-(b.den : ℤ)) b.num.natAbs

/-- Executable division on `ℚ`. -/
def qdiv (a b : ℚ) : ℚ := qmul a (qinv b)

/-- Executable strict-order test on `ℚ`. -/
def qltB (a b : ℚ) : Bool := decide (a.num * (b.den : ℤ) < b.num * (a.den : ℤ))

/-- Sum of a list of rationals via `qadd`. -/
def qsum (l : List ℚ) : ℚ := l.foldr qadd 0

/-- Round to three decimal digits: `⌊1000q + 1/2⌋ / 1000` (the idealised
decimal rounding performed by `round(x, 3)` over exact values). -/
def round3 (q : ℚ) : ℚ :=
  mkRat ((2 * (q.num * 1000) + (q.den : ℤ)).fdiv (2 * (q.den : ℤ))) 1000

/-! ## Data model: cells, rows, rosters

A roster (`pandas.DataFrame` with mandatory `Index` column) is a column-name
list together with rows; each row keeps its `Index` value and an association
list from column name to cell value, in column order. -/

/-- One table cell: a string (grades, passthrough data), a rational
(`SGPA`), an integer (`Rank`), or a missing value (`NaN`). -/
inductive Cell where
  | str : String → Cell
  | num : ℚ → Cell
  | int : ℤ → Cell
  | na : Cell
deriving DecidableEq

/-- One roster row: the `Index` key plus the remaining named cells. -/
structure Row where
  index : String
  cells : List (String × Cell)
deriving DecidableEq

/-- The roster table. -/
structure Roster where
  cols : List String
  rows : List Row
deriving DecidableEq

/-- First-occurrence lookup in a row's association list. -/
def lookupCell : List (String × Cell) → String → Option Cell
  | [], _ => none
  | (k, v) :: rest, n => if k = n then some v else lookupCell rest n

/-- Replace the first occurrence of column `n`, or append it (the semantics
of `df[n] = value` for one row). -/
def updateCell : List (String × Cell) → String → Cell → List (String × Cell)
  | [], n, v => [(n, v)]
  | (k, w) :: rest, n, v =>
    if k = n then (n, v) :: rest else (k, w) :: updateCell rest n v

/-- Read a cell by column name (`row[col]`); absent columns read as `NaN`. -/
def getCell (r : Row) (n : String) : Cell := (lookupCell r.cells n).getD Cell.na

/-- Write a cell by column name. -/
def setCell (r : Row) (n : String) (v : Cell) : Row := ⟨r.index, updateCell r.cells n v⟩

/-! ## `config.py`: GRADE_POINTS -/

/-- `GRADE_POINTS` from `modules/config.py`: the fixed grade-point table.
Lookup failure models `grade not in GRADE_POINTS`. -/
def GRADE_POINTS : String → Option ℚ
  | "A+" => some 4
  | "A" => some 4
  | "A-" => some (mkRat 37 10)
  | "B+" => some (mkRat 33 10)
  | "B" => some 3
  | "B-" => some (mkRat 27 10)
  | "C+" => some (mkRat 23 10)
  | "C" => some 2
  | "C-" => some (mkRat 17 10)
  | "D" => some 1
  | "I-we" => some 0
  | "I-ca" => some 0
  | "F" => some 0
  | "AB" => some 0
  | _ => none

/-! ## `data_processor.py`: merge and SGPA/rank -/

/-- `col.endswith('_Grade')`. -/
def endsWithGrade (s : String) : Bool := List.isSuffixOf "_Grade".data s.data

/-- Character-level model of `col.replace('_Grade', '')`: remove every
non-overlapping occurrence of `_Grade`, scanning left to right. -/
def stripGradeChars : List Char → List Char
  | '_' :: 'G' :: 'r' :: 'a' :: 'd' :: 'e' :: rest => stripGradeChars rest
  | c :: rest => c :: stripGradeChars rest
  | [] => []

/-- `col.replace('_Grade', '')`. -/
def stripGrade (s : String) : String := ⟨stripGradeChars s.data⟩

/-- `[col for col in df.columns if col.endswith('_Grade')]`. -/
def gradeColsOf (cols : List String) : List String := cols.filter endsWithGrade

/-- The loop body of `calc_student_sgpa`: accumulate
`(total_weighted_points, total_credits)` for one grade column; a column
counts only when the cell is a string present in `GRADE_POINTS` and the
stripped module code has a weight. -/
def sgpaStep (r : Row) (W : String → Option ℚ) (acc : ℚ × ℚ) (col : String) : ℚ × ℚ :=
  match getCell r col with
  | Cell.str g =>
    match GRADE_POINTS g, W (stripGrade col) with
    | some pts, some w => (qadd acc.1 (qmul pts w), qadd acc.2 w)
    | _, _ => acc
  | _ => acc

/-- `calc_student_sgpa` from `calculate_sgpa_and_rank`: fold over the grade
columns, then `0.0` if no credits counted, else the 3-digit-rounded
quotient `total_weighted_points / total_credits`. -/
def calcSGPA (gcols : List String) (r : Row) (W : String → Option ℚ) : ℚ :=
  let acc := gcols.foldl (sgpaStep r W) ((0 : ℚ), (0 : ℚ))
  if acc.2 = 0 then 0 else round3 (qdiv acc.1 acc.2)

/-- `df['SGPA'].rank(method='min', ascending=False).astype(int)` for the
value `s` within the column `sgpas`: one plus the number of strictly
greater values. -/
def rankIn (sgpas : List ℚ) (s : ℚ) : ℤ := 1 + (sgpas.countP (fun x => qltB s x) : ℤ)

/-- Set the derived `SGPA` and `Rank` cells of one row. -/
def rankRow (gcols : List String) (W : String → Option ℚ) (sgpas : List ℚ) (r : Row) : Row :=
  setCell (setCell r "SGPA" (Cell.num (calcSGPA gcols r W)))
    "Rank" (Cell.int (rankIn sgpas (calcSGPA gcols r W)))

/-- The SGPA column of a roster's rows. -/
def sgpasOf (cols : List String) (W : String → Option ℚ) (rows : List Row) : List ℚ :=
  rows.map (fun r => calcSGPA (gradeColsOf cols) r W)

/-- All rows with their `SGPA` and `Rank` cells written. -/
def newRowsOf (cols : List String) (W : String → Option ℚ) (rows : List Row) : List Row :=
  rows.map (rankRow (gradeColsOf cols) W (sgpasOf cols W rows))

/-- Observer: the stored `SGPA` value of a row. -/
def sgpaOf (r : Row) : ℚ :=
  match getCell r "SGPA" with
  | Cell.num q => q
  | _ => 0

/-- Observer: the stored `Rank` value of a row. -/
def rankOf (r : Row) : ℤ :=
  match getCell r "Rank" with
  | Cell.int k => k
  | _ => 0

/-- Comparison used by `df.sort_values('Rank')`. -/
def rowLe (a b : Row) : Bool := decide (rankOf a ≤ rankOf b)

/-- Insertion into a sorted list (stable). -/
def insertLe {α : Type} (le : α → α → Bool) (a : α) : List α → List α
  | [] => [a]
  | b :: t => if le a b then a :: b :: t else b :: insertLe le a t

/-- Insertion sort, modelling the roster sort by `Rank`.  `df.sort_values`
defaults to `kind='quicksort'`, which pandas documents as not stable, so the
program's order among tied ranks is implementation-defined; this model fixes
one admissible order (the stable one), and only order-insensitive
consequences — sortedness, membership, the row multiset — are read off it. -/
def sortLe {α : Type} (le : α → α → Bool) : List α → List α
  | [] => []
  | a :: t => insertLe le a (sortLe le t)

/-- `df[name] = column`: overwrite an existing column in place, else append. -/
def addCol (cols : List String) (name : String) : List String :=
  if name ∈ cols then cols else cols ++ [name]

/-- `calculate_sgpa_and_rank` from `modules/data_processor.py`. -/
def calculate_sgpa_and_rank (R : Roster) (W : String → Option ℚ) : Roster :=
  ⟨addCol (addCol R.cols "SGPA") "Rank", sortLe rowLe (newRowsOf R.cols W R.rows)⟩

/-- Expansion of one roster row under the left merge: one output row per
matching grade record, or a single `"N/A"` row when none matches. -/
def mergeRow (grades : List (String × String)) (gcol : String) (r : Row) : List Row :=
  match grades.filter (fun p => decide (p.1 = r.index)) with
  | [] => [⟨r.index, r.cells ++ [(gcol, Cell.str "N/A")]⟩]
  | ms => ms.map (fun p => ⟨r.index, r.cells ++ [(gcol, Cell.str p.2)]⟩)

/-- Left-merge of the grade records onto the roster rows, preserving the
roster's row order (pandas `how='left'`). -/
def mergeRows (grades : List (String × String)) (gcol : String) : List Row → List Row
  | [] => []
  | r :: rest => mergeRow grades gcol r ++ mergeRows grades gcol rest

/-- `merge_grades_with_department` from `modules/data_processor.py`: left
merge on `Index = Index_No`, drop `Index_No`, fill unmatched rows of the new
`<module_code>_Grade` column with `"N/A"`. -/
def merge_grades_with_department (dept : Roster) (grades : List (String × String))
    (module_code : String) : Roster :=
  ⟨dept.cols ++ [module_code ++ "_Grade"],
   mergeRows grades (module_code ++ "_Grade") dept.rows⟩

/-! ## `security.py`: sanitize_string -/

/-- The blacklisted characters of `sanitize_string` (`<>{}|\^~[]` and the
backquote), given by code point. -/
def badChars : List Char :=
  [60, 62, 123, 125, 124, 92, 94, 126, 91, 93, 96].map Char.ofNat

/-- `sanitize_string` from `modules/security.py`: drop blacklisted
characters. -/
def sanitize_string (s : String) : String :=
  ⟨s.data.filter (fun c => decide (c ∉ badChars))⟩

/-! ## `pdf_processor.py`: text extraction -/

/-- ASCII decimal digit (`\d` over the matched tokens). -/
def isDigitC (c : Char) : Bool := '0' ≤ c && c ≤ '9'

/-- ASCII uppercase letter (`[A-Z]`). -/
def isUpperC (c : Char) : Bool := 'A' ≤ c && c ≤ 'Z'

/-- ASCII lowercase letter (`[a-z]`). -/
def isLowerC (c : Char) : Bool := 'a' ≤ c && c ≤ 'z'

/-- ASCII whitespace (`\s`). -/
def isSpaceC (c : Char) : Bool :=
  c = ' ' || c = '\t' || c = '\n' || c = '\r' || c = Char.ofNat 11 || c = Char.ofNat 12

/-- Match `\d{6}[A-Z]` at the head of the text: the student index number. -/
def matchIdxNo : List Char → Option (String × List Char)
  | a :: b :: c :: d :: e :: f :: g :: rest =>
    if isDigitC a && isDigitC b && isDigitC c && isDigitC d && isDigitC e && isDigitC f
        && isUpperC g
    then some (⟨[a, b, c, d, e, f, g]⟩, rest) else none
  | _ => none

/-- Match the grade alternation `(I-we|I-ca|[A-Z][+-]?|F|D)` at the head of
the text, alternatives tried in the pattern's order. -/
def matchGrade : List Char → Option (String × List Char)
  | 'I' :: '-' :: 'w' :: 'e' :: rest => some ("I-we", rest)
  | 'I' :: '-' :: 'c' :: 'a' :: rest => some ("I-ca", rest)
  | c :: rest =>
    if isUpperC c then
      match rest with
      | p :: rest2 =>
        if p = '+' || p = '-' then some (⟨[c, p]⟩, rest2) else some (⟨[c]⟩, rest)
      | [] => some (⟨[c]⟩, [])
    else none
  | [] => none

/-- Match the whole record pattern `(\d{6}[A-Z])\s+(grade)` at the head of
the text. -/
def matchRecord (cs : List Char) : Option (String × String × List Char) :=
  match matchIdxNo cs with
  | none => none
  | some (idx, rest) =>
    match rest with
    | [] => none
    | c :: _ =>
      if isSpaceC c then
        match matchGrade (rest.dropWhile isSpaceC) with
        | some (g, rest2) => some (idx, g, rest2)
        | none => none
      else none

/-- `re.findall` scanning: try the record pattern at each position, emit the
match and resume after it, else advance one character.  The fuel argument is
the initial text length; every step consumes at least one character, so the
fuel never runs out (`parseGradesAux_fuel`). -/
def parseGradesAux : Nat → List Char → List (String × String)
  | 0, _ => []
  | _ + 1, [] => []
  | fuel + 1, c :: rest =>
    match matchRecord (c :: rest) with
    | some (idx, g, rest2) => (idx, g) :: parseGradesAux fuel rest2
    | none => parseGradesAux fuel rest

/-- `parse_grades` from `modules/pdf_processor.py` (records as
`(Index_No, Grade)` pairs, both sanitized). -/
def parse_grades (text : String) : List (String × String) :=
  (parseGradesAux text.data.length text.data).map
    (fun p => (sanitize_string p.1, sanitize_string p.2))

/-- Match `[A-Z]{2}\d{4}` (a module code) at the head of the text. -/
def matchModCode : List Char → Option (String × List Char)
  | a :: b :: c :: d :: e :: f :: rest =>
    if isUpperC a && isUpperC b && isDigitC c && isDigitC d && isDigitC e && isDigitC f
    then some (⟨[a, b, c, d, e, f]⟩, rest) else none
  | _ => none

/-- The lookahead `(?=\n|Intake|$)` of the module-header pattern. -/
def lookaheadOk : List Char → Bool
  | [] => true
  | '\n' :: _ => true
  | 'I' :: 'n' :: 't' :: 'a' :: 'k' :: 'e' :: _ => true
  | _ => false

/-- A module-name character (`[A-Za-z\s]`). -/
def isNameC (c : Char) : Bool := isUpperC c || isLowerC c || isSpaceC c

/-- Non-greedy `([A-Za-z\s]+?)` followed by the lookahead: consume at least
one name character and stop at the first position where the lookahead
succeeds. -/
def matchName : List Char → Option (String × List Char)
  | [] => none
  | c :: rest =>
    if isNameC c then
      if lookaheadOk rest then some (⟨[c]⟩, rest)
      else
        match matchName rest with
        | some (s, r2) => some (⟨c :: s.data⟩, r2)
        | none => none
    else none

/-- Backtracking of the greedy `\s*` before the module name: first try the
maximal whitespace run (already consumed), then give characters back one at
a time.  `wsrev` is the reversed not-yet-given-back run. -/
def tryNameBack : List Char → List Char → Option (String × List Char)
  | wsrev, tailc =>
    match matchName tailc with
    | some r => some r
    | none =>
      match wsrev with
      | [] => none
      | w :: wsrev2 => tryNameBack wsrev2 (w :: tailc)

/-- Match `\s*-\s*([A-Za-z\s]+?)(?=\n|Intake|$)` at the head of the text
(the part of the header pattern after the module code). -/
def matchDashName (cs : List Char) : Option (String × List Char) :=
  match cs.dropWhile isSpaceC with
  | '-' :: rest => tryNameBack (rest.takeWhile isSpaceC).reverse (rest.dropWhile isSpaceC)
  | _ => none

/-- Match the full header pattern
`([A-Z]{2}\d{4})\s*-\s*([A-Za-z\s]+?)(?=\n|Intake|$)` at the head. -/
def matchHeaderAt (cs : List Char) : Option (String × String) :=
  match matchModCode cs with
  | none => none
  | some (code, rest) =>
    match matchDashName rest with
    | some (name, _) => some (code, name)
    | none => none

/-- `re.search` for the header pattern: first position where it matches. -/
def findHeader : List Char → Option (String × String)
  | [] => none
  | c :: rest =>
    match matchHeaderAt (c :: rest) with
    | some r => some r
    | none => findHeader rest

/-- `re.search` for the bare code pattern `[A-Z]{2}\d{4}`. -/
def findCode : List Char → Option String
  | [] => none
  | c :: rest =>
    match matchModCode (c :: rest) with
    | some (code, _) => some code
    | none => findCode rest

/-- Python `str.strip()`: remove leading and trailing whitespace. -/
def pyStrip (s : String) : String :=
  ⟨((s.data.dropWhile isSpaceC).reverse.dropWhile isSpaceC).reverse⟩

/-- `extract_module_info` from `modules/pdf_processor.py`: header pattern
first, then bare module code with name `"Unknown Module"`, else
`("Unknown", "Unknown Module")`. -/
def extract_module_info (text : String) : String × String :=
  match findHeader text.data with
  | some (code, name) => (pyStrip code, pyStrip name)
  | none =>
    match findCode text.data with
    | some code => (code, "Unknown Module")
    | none => ("Unknown", "Unknown Module")

/-- `process_pdf` from `modules/pdf_processor.py`, at the level of the
extracted text (the PDF byte-to-text collaborator is external): `none` when
the text is empty or no grade record is found. -/
def process_pdf_text (text : String) :
    Option (List (String × String)) × String × String :=
  if text = "" then (none, "", "")
  else
    let mi := extract_module_info text
    let gs := parse_grades text
    if gs = [] then (none, mi.1, mi.2) else (some gs, mi.1, mi.2)

/-- `df.drop(columns=[name])`: remove a column everywhere. -/
def dropCol (R : Roster) (name : String) : Roster :=
  ⟨R.cols.filter (fun c => decide (c ≠ name)),
   R.rows.map (fun r => ⟨r.index, r.cells.filter (fun p => decide (p.1 ≠ name))⟩)⟩

/-- The "Add This Result" step of `app.py`: process the document text; on a
`None`/empty grades table, leave the roster untouched; otherwise drop an
existing column for the module (replace semantics) and merge. -/
def app_add_result (dept : Roster) (processed : List String) (text : String) : Roster :=
  match process_pdf_text text with
  | (none, _, _) => dept
  | (some gs, code, _) =>
    let dept1 := if code ∈ processed then dropCol dept (code ++ "_Grade") else dept
    merge_grades_with_department dept1 gs code

/-! ## Specification-side SGPA (from the spec's words, for refinement) -/

/-- The contributing `(points * weight, weight)` pairs of a row, phrased as
in the spec: a grade column contributes exactly when its grade value is a
key of `GRADE_POINTS` and its module code has a weight. -/
def sgpaContribs (gcols : List String) (r : Row) (W : String → Option ℚ) : List (ℚ × ℚ) :=
  gcols.filterMap (fun col =>
    match getCell r col with
    | Cell.str g =>
      match GRADE_POINTS g, W (stripGrade col) with
      | some pts, some w => some (qmul pts w, w)
      | _, _ => none
    | _ => none)

/-- The spec's SGPA: `round(weightedSum / weightSum, 3)`, and exactly `0`
when the weight sum is zero. -/
def specSGPA (gcols : List String) (r : Row) (W : String → Option ℚ) : ℚ :=
  let ws := qsum ((sgpaContribs gcols r W).map Prod.snd)
  if ws = 0 then 0 else round3 (qdiv (qsum ((sgpaContribs gcols r W).map Prod.fst)) ws)

/-- The grade a student receives in the merged column: the first matching
record's grade, or `"N/A"` (with unique ids, "first" is "the"). -/
def gradeFor (g : List (String × String)) (i : String) : String :=
  match g.filter (fun p => decide (p.1 = i)) with
  | [] => "N/A"
  | p :: _ => p.2

/-- The single-row result of merging one roster row when at most one record
matches it. -/
def extendMerge (g : List (String × String)) (gcol : String) (r : Row) : Row :=
  ⟨r.index, r.cells ++ [(gcol, Cell.str (gradeFor g r.index))]⟩

/-! ## Concrete scenarios from the specification -/

/-- A one-student roster with grade A in module `MA1014` and grade B+ in
module `CS2023` (the spec's ranking scenario). -/
def scenarioRoster : Roster :=
  ⟨["MA1014_Grade", "CS2023_Grade"],
   [⟨"200145A", [("MA1014_Grade", Cell.str "A"), ("CS2023_Grade", Cell.str "B+")]⟩]⟩

/-- Weights 3 and 2 for the ranking scenario. -/
def scenarioWeights : String → Option ℚ :=
  fun c => if c = "MA1014" then some 3 else if c = "CS2023" then some 2 else none

/-- Three students: two tied at SGPA 3.000, one at 2.000 (the spec's tie
scenario). -/
def tieRoster : Roster :=
  ⟨["MA1014_Grade"],
   [⟨"200001A", [("MA1014_Grade", Cell.str "B")]⟩,
    ⟨"200002B", [("MA1014_Grade", Cell.str "B")]⟩,
    ⟨"200003C", [("MA1014_Grade", Cell.str "C")]⟩]⟩

/-- Weight 1 for the tie scenario. -/
def tieWeights : String → Option ℚ := fun c => if c = "MA1014" then some 1 else none

/-- The spec's merge scenario roster: two students, no other columns. -/
def mergeScenarioRoster : Roster := ⟨[], [⟨"200145A", []⟩, ⟨"200146B", []⟩]⟩

/-- The spec's merge scenario records: a single B+ for the first student. -/
def mergeScenarioRecords : List (String × String) := [("200145A", "B+")]

/-! ## Bridge lemmas for the executable rational operations -/

theorem qadd_eq (a b : ℚ) : qadd a b = a + b := by
  have ha : ((a.den : ℚ)) ≠ 0 := by exact_mod_cast a.den_ne_zero
  have hb : ((b.den : ℚ)) ≠ 0 := by exact_mod_cast b.den_ne_zero
  rw [qadd, Rat.mkRat_eq_divInt, Rat.divInt_eq_div]
  conv_rhs => rw [← Rat.num_div_den a, ← Rat.num_div_den b]
  rw [div_add_div _ _ ha hb]
  push_cast
  ring_nf

theorem qmul_eq (a b : ℚ) : qmul a b = a * b := by
  have ha : ((a.den : ℚ)) ≠ 0 := by exact_mod_cast a.den_ne_zero
  have hb : ((b.den : ℚ)) ≠ 0 := by exact_mod_cast b.den_ne_zero
  rw [qmul, Rat.mkRat_eq_divInt, Rat.divInt_eq_div]
  conv_rhs => rw [← Rat.num_div_den a, ← Rat.num_div_den b]
  rw [div_mul_div_comm]
  push_cast
  ring_nf

theorem qinv_eq (b : ℚ) : qinv b = b⁻¹ := by
  rcases le_or_lt 0 b.num with h | h
  · rw [qinv, if_pos h, Rat.mkRat_eq_divInt, Int.natAbs_of_nonneg h, Rat.inv_def']
  · rw [qinv, if_neg (not_le.mpr h), Rat.mkRat_eq_divInt, Rat.inv_def']
    have habs : (b.num.natAbs : ℤ) = -b.num := by
      omega
    rw [habs]
    rw [Rat.divInt_eq_div, Rat.divInt_eq_div]
    push_cast
    rw [div_neg, neg_div, neg_neg]

theorem qdiv_eq (a b : ℚ) : qdiv a b = a / b := by
  rw [qdiv, qmul_eq, qinv_eq, div_eq_mul_inv]

theorem qltB_iff (a b : ℚ) : qltB a b = true ↔ a < b := by
  rw [qltB, decide_eq_true_iff, ← Rat.lt_def]

theorem qsum_eq (l : List ℚ) : qsum l = l.sum := by
  induction l with
  | nil => rfl
  | cons a t ih => simp [qsum, List.foldr_cons, qadd_eq, List.sum_cons] at *; rw [ih]

/-! ## Association-list lemmas -/

theorem lookupCell_update_self (l : List (String × Cell)) (n : String) (v : Cell) :
    lookupCell (updateCell l n v) n = some v := by
  induction l with
  | nil => simp [updateCell, lookupCell]
  | cons p rest ih =>
    obtain ⟨k, w⟩ := p
    by_cases h : k = n
    · simp [updateCell, h, lookupCell]
    · simp [updateCell, h, lookupCell, ih]

theorem lookupCell_update_ne (l : List (String × Cell)) {m n : String} (v : Cell)
    (h : m ≠ n) : lookupCell (updateCell l n v) m = lookupCell l m := by
  have hnm : ¬(n = m) := fun hc => h hc.symm
  induction l with
  | nil => simp [updateCell, lookupCell, hnm]
  | cons p rest ih =>
    obtain ⟨k, w⟩ := p
    by_cases hp : k = n
    · subst hp
      simp [updateCell, lookupCell, hnm]
    · simp [updateCell, hp, lookupCell, ih]

theorem updateCell_eq_self {l : List (String × Cell)} {n : String} {v : Cell}
    (h : lookupCell l n = some v) : updateCell l n v = l := by
  induction l with
  | nil => simp [lookupCell] at h
  | cons p rest ih =>
    obtain ⟨k, w⟩ := p
    by_cases hp : k = n
    · subst hp
      have hv : w = v := by simpa [lookupCell] using h
      subst hv
      simp [updateCell]
    · simp only [lookupCell, if_neg hp] at h
      simp [updateCell, hp, ih h]

theorem lookupCell_append_ne (l : List (String × Cell)) {k n : String} (v : Cell)
    (h : k ≠ n) : lookupCell (l ++ [(k, v)]) n = lookupCell l n := by
  induction l with
  | nil => simp [lookupCell, h]
  | cons p rest ih =>
    obtain ⟨k2, w⟩ := p
    by_cases hp : k2 = n <;> simp [lookupCell, hp, ih]

theorem getCell_setCell_self (r : Row) (n : String) (v : Cell) :
    getCell (setCell r n v) n = v := by
  simp [getCell, setCell, lookupCell_update_self]

theorem getCell_setCell_ne (r : Row) {m n : String} (v : Cell) (h : m ≠ n) :
    getCell (setCell r n v) m = getCell r m := by
  simp [getCell, setCell, lookupCell_update_ne _ _ h]

theorem setCell_eq_self {r : Row} {n : String} {v : Cell}
    (h : lookupCell r.cells n = some v) : setCell r n v = r := by
  simp [setCell, updateCell_eq_self h]

theorem getCell_extend_ne {i : String} {cells : List (String × Cell)} {k name : String}
    {v : Cell} (h : k ≠ name) :
    getCell ⟨i, cells ++ [(k, v)]⟩ name = getCell ⟨i, cells⟩ name := by
  rw [getCell, getCell]
  show (lookupCell (cells ++ [(k, v)]) name).getD Cell.na = _
  rw [lookupCell_append_ne _ _ h]

/-! ## Insertion-sort lemmas -/

theorem insertLe_perm {α : Type} (le : α → α → Bool) (a : α) (l : List α) :
    (insertLe le a l).Perm (a :: l) := by
  induction l with
  | nil => simp [insertLe]
  | cons b t ih =>
    by_cases h : le a b = true
    · simp [insertLe, h]
    · simp only [insertLe, h, if_false]
      exact (ih.cons b).trans (List.Perm.swap a b t)

theorem sortLe_perm {α : Type} (le : α → α → Bool) (l : List α) :
    (sortLe le l).Perm l := by
  induction l with
  | nil => simp [sortLe]
  | cons a t ih => exact (insertLe_perm le a (sortLe le t)).trans (ih.cons a)

theorem mem_sortLe {α : Type} {le : α → α → Bool} {l : List α} {x : α} :
    x ∈ sortLe le l ↔ x ∈ l := (sortLe_perm le l).mem_iff

theorem pairwise_insertLe {α : Type} {le : α → α → Bool}
    (htot : ∀ a b, le a b = true ∨ le b a = true)
    (htrans : ∀ a b c, le a b = true → le b c = true → le a c = true)
    {a : α} {l : List α} (h : l.Pairwise (fun x y => le x y = true)) :
    (insertLe le a l).Pairwise (fun x y => le x y = true) := by
  induction l with
  | nil => simp [insertLe]
  | cons b t ih =>
    rcases List.pairwise_cons.mp h with ⟨hb, ht⟩
    by_cases hab : le a b = true
    · simp only [insertLe, hab, if_true]
      refine List.pairwise_cons.mpr ⟨?_, h⟩
      intro x hx
      rcases List.mem_cons.mp hx with rfl | hx
      · exact hab
      · exact htrans a b x hab (hb x hx)
    · simp only [insertLe, hab, if_false]
      refine List.pairwise_cons.mpr ⟨?_, ih ht⟩
      intro x hx
      rcases List.mem_cons.mp ((insertLe_perm le a t).mem_iff.mp hx) with rfl | hx
      · rcases htot x b with h' | h'
        · exact absurd h' hab
        · exact h'
      · exact hb x hx

theorem pairwise_sortLe {α : Type} {le : α → α → Bool}
    (htot : ∀ a b, le a b = true ∨ le b a = true)
    (htrans : ∀ a b c, le a b = true → le b c = true → le a c = true)
    (l : List α) : (sortLe le l).Pairwise (fun x y => le x y = true) := by
  induction l with
  | nil => simp [sortLe]
  | cons a t ih => exact pairwise_insertLe htot htrans ih

theorem sortLe_eq_self {α : Type} {le : α → α → Bool} {l : List α}
    (h : l.Pairwise (fun x y => le x y = true)) : sortLe le l = l := by
  induction l with
  | nil => rfl
  | cons a t ih =>
    rcases List.pairwise_cons.mp h with ⟨ha, ht⟩
    rw [sortLe, ih ht]
    cases t with
    | nil => rfl
    | cons b t2 => simp [insertLe, ha b (List.mem_cons_self b t2)]

/-! ## Counting lemmas -/

theorem countP_ext {α : Type} (p q : α → Bool) (l : List α) (h : ∀ a ∈ l, p a = q a) :
    l.countP p = l.countP q := by
  induction l with
  | nil => rfl
  | cons a t ih =>
    rw [List.countP_cons, List.countP_cons, h a (List.mem_cons_self a t),
      ih (fun x hx => h x (List.mem_cons_of_mem a hx))]

theorem qltB_eq_false_iff (a b : ℚ) : qltB a b = false ↔ ¬a < b := by
  rw [← qltB_iff]
  cases qltB a b <;> simp

theorem countP_between {s1 s2 : ℚ} (h12 : s2 < s1) :
    ∀ l : List ℚ, (∀ x ∈ l, ¬(s2 < x ∧ x < s1)) →
      l.countP (fun x => qltB s2 x)
        = l.countP (fun x => qltB s1 x) + l.countP (fun x => decide (x = s1)) := by
  intro l
  induction l with
  | nil => intro _; rfl
  | cons a t ih =>
    intro hb
    have ha := hb a (List.mem_cons_self a t)
    rw [List.countP_cons, List.countP_cons, List.countP_cons,
      ih (fun x hx => hb x (List.mem_cons_of_mem a hx))]
    rcases lt_trichotomy a s1 with h1 | h1 | h1
    · have e1 : qltB s2 a = false := (qltB_eq_false_iff s2 a).mpr (fun hc => ha ⟨hc, h1⟩)
      have e2 : qltB s1 a = false := (qltB_eq_false_iff s1 a).mpr (lt_asymm h1)
      have e3 : decide (a = s1) = false := decide_eq_false (ne_of_lt h1)
      simp [e1, e2, e3]
    · subst h1
      have e1 : qltB s2 a = true := (qltB_iff s2 a).mpr h12
      have e2 : qltB a a = false := (qltB_eq_false_iff a a).mpr (lt_irrefl a)
      simp [e1, e2]
      omega
    · have e1 : qltB s2 a = true := (qltB_iff s2 a).mpr (lt_trans h12 h1)
      have e2 : qltB s1 a = true := (qltB_iff s1 a).mpr h1
      have e3 : decide (a = s1) = false := decide_eq_false (ne_of_gt h1)
      simp [e1, e2, e3]
      omega

theorem rankIn_eq_of_eq {l : List ℚ} {s1 s2 : ℚ} (h : s1 = s2) :
    rankIn l s1 = rankIn l s2 := by rw [h]

theorem rankIn_le {l : List ℚ} {s1 s2 : ℚ} (h : s2 < s1) :
    rankIn l s1 ≤ rankIn l s2 := by
  rw [rankIn, rankIn]
  have hmono : l.countP (fun x => qltB s1 x) ≤ l.countP (fun x => qltB s2 x) :=
    List.countP_mono_left (fun x _ hpx => (qltB_iff s2 x).mpr (lt_trans h ((qltB_iff s1 x).mp hpx)))
  omega

theorem rankIn_next {l : List ℚ} {s1 s2 : ℚ} (h12 : s2 < s1)
    (hb : ∀ x ∈ l, ¬(s2 < x ∧ x < s1)) :
    rankIn l s2 = rankIn l s1 + (l.countP (fun x => decide (x = s1)) : ℤ) := by
  rw [rankIn, rankIn, countP_between h12 l hb]
  push_cast
  ring

theorem rankIn_perm {l1 l2 : List ℚ} (h : l1.Perm l2) (s : ℚ) :
    rankIn l1 s = rankIn l2 s := by
  rw [rankIn, rankIn, h.countP_eq]

/-! ## SGPA fold characterisation and refinement -/

theorem sgpaFold (r : Row) (W : String → Option ℚ) :
    ∀ (gcols : List String) (a b : ℚ),
      gcols.foldl (sgpaStep r W) (a, b)
        = (a + ((sgpaContribs gcols r W).map Prod.fst).sum,
           b + ((sgpaContribs gcols r W).map Prod.snd).sum) := by
  intro gcols
  induction gcols with
  | nil => intro a b; simp [sgpaContribs]
  | cons c t ih =>
    intro a b
    rw [List.foldl_cons]
    cases hgc : getCell r c with
    | str g =>
      cases hp : GRADE_POINTS g with
      | none => simp [sgpaStep, sgpaContribs, hgc, hp, List.filterMap_cons, ih]
      | some pts =>
        cases hw : W (stripGrade c) with
        | none => simp [sgpaStep, sgpaContribs, hgc, hp, hw, List.filterMap_cons, ih]
        | some w =>
          have hstep : sgpaStep r W (a, b) c = (qadd a (qmul pts w), qadd b w) := by
            simp [sgpaStep, hgc, hp, hw]
          rw [hstep, ih]
          simp only [sgpaContribs, List.filterMap_cons, hgc, hp, hw, List.map_cons,
            List.sum_cons, Prod.mk.injEq, qadd_eq]
          constructor <;> ring
    | num q => simp [sgpaStep, sgpaContribs, hgc, List.filterMap_cons, ih]
    | int k => simp [sgpaStep, sgpaContribs, hgc, List.filterMap_cons, ih]
    | na => simp [sgpaStep, sgpaContribs, hgc, List.filterMap_cons, ih]

theorem specSGPA_eq_calcSGPA (gcols : List String) (r : Row) (W : String → Option ℚ) :
    specSGPA gcols r W = calcSGPA gcols r W := by
  rw [specSGPA, calcSGPA]
  rw [sgpaFold r W gcols 0 0]
  simp [qsum_eq]

theorem foldl_sgpaStep_congr {r1 r2 : Row} (W : String → Option ℚ) :
    ∀ gcols : List String, (∀ c ∈ gcols, getCell r1 c = getCell r2 c) →
      ∀ acc : ℚ × ℚ, gcols.foldl (sgpaStep r1 W) acc = gcols.foldl (sgpaStep r2 W) acc := by
  intro gcols
  induction gcols with
  | nil => intro _ acc; rfl
  | cons c t ih =>
    intro h acc
    rw [List.foldl_cons, List.foldl_cons]
    have hc : sgpaStep r1 W acc c = sgpaStep r2 W acc c := by
      rw [sgpaStep, sgpaStep, h c (List.mem_cons_self c t)]
    rw [hc]
    exact ih (fun x hx => h x (List.mem_cons_of_mem c hx)) _

theorem calcSGPA_congr {gcols : List String} {r1 r2 : Row} (W : String → Option ℚ)
    (h : ∀ c ∈ gcols, getCell r1 c = getCell r2 c) :
    calcSGPA gcols r1 W = calcSGPA gcols r2 W := by
  rw [calcSGPA, calcSGPA, foldl_sgpaStep_congr W gcols h]

/-! ## Lemmas about `rankRow`, `addCol`, `gradeColsOf` -/

theorem getCell_rankRow_SGPA (gcols : List String) (W : String → Option ℚ)
    (sgpas : List ℚ) (r : Row) :
    getCell (rankRow gcols W sgpas r) "SGPA" = Cell.num (calcSGPA gcols r W) := by
  rw [rankRow, getCell_setCell_ne _ _ (by decide), getCell_setCell_self]

theorem getCell_rankRow_Rank (gcols : List String) (W : String → Option ℚ)
    (sgpas : List ℚ) (r : Row) :
    getCell (rankRow gcols W sgpas r) "Rank"
      = Cell.int (rankIn sgpas (calcSGPA gcols r W)) := by
  rw [rankRow, getCell_setCell_self]

theorem sgpaOf_rankRow (gcols : List String) (W : String → Option ℚ)
    (sgpas : List ℚ) (r : Row) :
    sgpaOf (rankRow gcols W sgpas r) = calcSGPA gcols r W := by
  rw [sgpaOf, getCell_rankRow_SGPA]

theorem rankOf_rankRow (gcols : List String) (W : String → Option ℚ)
    (sgpas : List ℚ) (r : Row) :
    rankOf (rankRow gcols W sgpas r) = rankIn sgpas (calcSGPA gcols r W) := by
  rw [rankOf, getCell_rankRow_Rank]

theorem getCell_rankRow_other {c : String} (h1 : c ≠ "SGPA") (h2 : c ≠ "Rank")
    (gcols : List String) (W : String → Option ℚ) (sgpas : List ℚ) (r : Row) :
    getCell (rankRow gcols W sgpas r) c = getCell r c := by
  rw [rankRow, getCell_setCell_ne _ _ h2, getCell_setCell_ne _ _ h1]

theorem lookupCell_rankRow_SGPA (gcols : List String) (W : String → Option ℚ)
    (sgpas : List ℚ) (r : Row) :
    lookupCell (rankRow gcols W sgpas r).cells "SGPA"
      = some (Cell.num (calcSGPA gcols r W)) := by
  show lookupCell (updateCell (updateCell r.cells "SGPA" _) "Rank" _) "SGPA" = _
  rw [lookupCell_update_ne _ _ (by decide), lookupCell_update_self]

theorem lookupCell_rankRow_Rank (gcols : List String) (W : String → Option ℚ)
    (sgpas : List ℚ) (r : Row) :
    lookupCell (rankRow gcols W sgpas r).cells "Rank"
      = some (Cell.int (rankIn sgpas (calcSGPA gcols r W))) := by
  show lookupCell (updateCell (updateCell r.cells "SGPA" _) "Rank" _) "Rank" = _
  rw [lookupCell_update_self]

theorem endsWithGrade_ne_SGPA {c : String} (h : endsWithGrade c = true) : c ≠ "SGPA" := by
  rintro rfl
  exact absurd h (by decide)

theorem endsWithGrade_ne_Rank {c : String} (h : endsWithGrade c = true) : c ≠ "Rank" := by
  rintro rfl
  exact absurd h (by decide)

theorem calcSGPA_rankRow {gcols : List String} (hg : ∀ c ∈ gcols, endsWithGrade c = true)
    (g2 : List String) (W2 W : String → Option ℚ) (sg2 : List ℚ) (r : Row) :
    calcSGPA gcols (rankRow g2 W2 sg2 r) W = calcSGPA gcols r W :=
  calcSGPA_congr W (fun c hc =>
    getCell_rankRow_other (endsWithGrade_ne_SGPA (hg c hc)) (endsWithGrade_ne_Rank (hg c hc))
      g2 W2 sg2 r)

theorem mem_addCol_self (cols : List String) (n : String) : n ∈ addCol cols n := by
  by_cases h : n ∈ cols <;> simp [addCol, h]

theorem mem_addCol_of_mem {cols : List String} {n : String} (m : String) (h : n ∈ cols) :
    n ∈ addCol cols m := by
  by_cases hm : m ∈ cols <;> simp [addCol, hm, h]

theorem addCol_of_mem {cols : List String} {n : String} (h : n ∈ cols) :
    addCol cols n = cols := by
  simp [addCol, h]

theorem gradeColsOf_addCol {n : String} (h : endsWithGrade n = false) (cols : List String) :
    gradeColsOf (addCol cols n) = gradeColsOf cols := by
  by_cases hm : n ∈ cols
  · simp [addCol, hm]
  · simp [addCol, hm, gradeColsOf, List.filter_append, h]

theorem mem_gradeColsOf {cols : List String} {c : String} (h : c ∈ gradeColsOf cols) :
    endsWithGrade c = true := List.of_mem_filter h

theorem rowLe_total (a b : Row) : rowLe a b = true ∨ rowLe b a = true := by
  rcases le_total (rankOf a) (rankOf b) with h | h
  · exact Or.inl (decide_eq_true h)
  · exact Or.inr (decide_eq_true h)

theorem rowLe_trans (a b c : Row) (h1 : rowLe a b = true) (h2 : rowLe b c = true) :
    rowLe a c = true :=
  decide_eq_true (le_trans (of_decide_eq_true h1) (of_decide_eq_true h2))

/-! ## Characterisation of `calculate_sgpa_and_rank` -/

theorem compute_rows (R : Roster) (W : String → Option ℚ) :
    (calculate_sgpa_and_rank R W).rows = sortLe rowLe (newRowsOf R.cols W R.rows) := rfl

theorem compute_cols (R : Roster) (W : String → Option ℚ) :
    (calculate_sgpa_and_rank R W).cols = addCol (addCol R.cols "SGPA") "Rank" := rfl

theorem mem_compute_rows {R : Roster} {W : String → Option ℚ} {r' : Row} :
    r' ∈ (calculate_sgpa_and_rank R W).rows
      ↔ ∃ r0 ∈ R.rows, rankRow (gradeColsOf R.cols) W (sgpasOf R.cols W R.rows) r0 = r' := by
  rw [compute_rows, mem_sortLe, newRowsOf]
  exact List.mem_map

theorem map_sgpaOf_newRowsOf (cols : List String) (W : String → Option ℚ) (rows : List Row) :
    (newRowsOf cols W rows).map sgpaOf = sgpasOf cols W rows := by
  rw [newRowsOf, List.map_map, sgpasOf]
  exact List.map_congr_left (fun r _ => sgpaOf_rankRow _ _ _ r)

/-! ## Merge lemmas -/

theorem mergeRows_cons (g : List (String × String)) (gcol : String) (r : Row)
    (rest : List Row) :
    mergeRows g gcol (r :: rest) = mergeRow g gcol r ++ mergeRows g gcol rest := rfl

theorem mem_mergeRows {g : List (String × String)} {gcol : String} {r' : Row}
    {rows : List Row} :
    r' ∈ mergeRows g gcol rows ↔ ∃ r ∈ rows, r' ∈ mergeRow g gcol r := by
  induction rows with
  | nil => simp [mergeRows]
  | cons r rest ih => simp [mergeRows_cons, List.mem_append, ih]

theorem mergeRow_index {g : List (String × String)} {gcol : String} {r r' : Row}
    (h : r' ∈ mergeRow g gcol r) : r'.index = r.index := by
  cases hf : g.filter (fun p => decide (p.1 = r.index)) with
  | nil =>
    simp only [mergeRow, hf, List.mem_singleton] at h
    rw [h]
  | cons q t =>
    simp only [mergeRow, hf] at h
    rcases List.mem_map.mp h with ⟨p, _, rfl⟩
    rfl

theorem mergeRow_cases {g : List (String × String)} {gcol : String} {r r' : Row}
    (h : r' ∈ mergeRow g gcol r) :
    (r' = ⟨r.index, r.cells ++ [(gcol, Cell.str "N/A")]⟩ ∧ ∀ p ∈ g, p.1 ≠ r.index)
    ∨ ∃ p ∈ g, p.1 = r.index ∧ r' = ⟨r.index, r.cells ++ [(gcol, Cell.str p.2)]⟩ := by
  cases hf : g.filter (fun p => decide (p.1 = r.index)) with
  | nil =>
    left
    refine ⟨by simpa [mergeRow, hf] using h, ?_⟩
    intro p hp hpi
    have hmem : p ∈ g.filter (fun p => decide (p.1 = r.index)) :=
      List.mem_filter.mpr ⟨hp, decide_eq_true hpi⟩
    rw [hf] at hmem
    simp at hmem
  | cons q t =>
    right
    simp only [mergeRow, hf] at h
    rcases List.mem_map.mp h with ⟨p, hpmem, rfl⟩
    have hpf : p ∈ g.filter (fun p => decide (p.1 = r.index)) := by rw [hf]; exact hpmem
    obtain ⟨hpg, hdec⟩ := List.mem_filter.mp hpf
    exact ⟨p, hpg, of_decide_eq_true hdec, rfl⟩

theorem filter_len_le_one_of_nodup {g : List (String × String)}
    (h : (g.map Prod.fst).Nodup) (i : String) :
    (g.filter (fun p => decide (p.1 = i))).length ≤ 1 := by
  induction g with
  | nil => simp
  | cons q t ih =>
    rw [List.map_cons, List.nodup_cons] at h
    obtain ⟨hq, ht⟩ := h
    by_cases hqi : q.1 = i
    · have hrest : t.filter (fun p => decide (p.1 = i)) = [] := by
        rw [List.filter_eq_nil_iff]
        intro p hp hdec
        refine hq ?_
        rw [hqi, ← of_decide_eq_true hdec]
        exact List.mem_map_of_mem Prod.fst hp
      rw [List.filter_cons_of_pos (by simpa using hqi), hrest]
      simp
    · rw [List.filter_cons_of_neg (by simpa using hqi)]
      exact ih ht

theorem mergeRow_single {g : List (String × String)} {r : Row}
    (h : (g.filter (fun p => decide (p.1 = r.index))).length ≤ 1) (gcol : String) :
    mergeRow g gcol r = [extendMerge g gcol r] := by
  cases hf : g.filter (fun p => decide (p.1 = r.index)) with
  | nil => simp [mergeRow, extendMerge, gradeFor, hf]
  | cons q t =>
    cases t with
    | nil => simp [mergeRow, extendMerge, gradeFor, hf]
    | cons q2 t2 =>
      rw [hf] at h
      simp at h

theorem mergeRows_map_of_nodup {g : List (String × String)}
    (h : (g.map Prod.fst).Nodup) (gcol : String) :
    ∀ rows : List Row, mergeRows g gcol rows = rows.map (extendMerge g gcol) := by
  intro rows
  induction rows with
  | nil => rfl
  | cons r rest ih =>
    rw [mergeRows_cons, mergeRow_single (filter_len_le_one_of_nodup h r.index) gcol, ih]
    rfl

theorem mergeRows_filter_index (g : List (String × String)) (gcol : String) (i : String) :
    ∀ rows : List Row,
      (mergeRows g gcol rows).filter (fun r => decide (r.index = i))
        = mergeRows g gcol (rows.filter (fun r => decide (r.index = i))) := by
  intro rows
  induction rows with
  | nil => rfl
  | cons r rest ih =>
    rw [mergeRows_cons, List.filter_append, ih]
    by_cases hri : r.index = i
    · have hall : (mergeRow g gcol r).filter (fun x => decide (x.index = i))
          = mergeRow g gcol r :=
        List.filter_eq_self.mpr
          (fun r' hr' => decide_eq_true (by rw [mergeRow_index hr', hri]))
      rw [hall, List.filter_cons_of_pos (by simpa using hri), mergeRows_cons]
    · have hnone : (mergeRow g gcol r).filter (fun x => decide (x.index = i)) = [] :=
        List.filter_eq_nil_iff.mpr
          (fun r' hr' hdec => hri (by rw [← mergeRow_index hr']; exact of_decide_eq_true hdec))
      rw [hnone, List.filter_cons_of_neg (by simpa using hri)]
      simp

/-! ## Claim theorems -/

/-- Claim C1: for every roster row, the SGPA written by
`calculate_sgpa_and_rank` equals the spec's formula — `round` to three
decimal digits of the quotient of the weighted point sum by the weight sum,
where a grade column contributes only when its grade is a key of
`GRADE_POINTS` and its module code has a weight (the `"N/A"` sentinel and
unknown symbols are skipped), and exactly `0` when the weight sum is zero —
and the concrete one-student scenario (grade A with weight 3, grade B+ with
weight 2) yields SGPA exactly 3.720. -/
theorem C1_sgpa_formula (R : Roster) (W : String → Option ℚ) :
    (∀ r' ∈ (calculate_sgpa_and_rank R W).rows,
      getCell r' "SGPA" = Cell.num (specSGPA (gradeColsOf R.cols) r' W))
    ∧ (calculate_sgpa_and_rank scenarioRoster scenarioWeights).rows.map sgpaOf
        = [(3.720 : ℚ)] := by
  constructor
  · intro r' hr'
    rcases mem_compute_rows.mp hr' with ⟨r0, hr0, rfl⟩
    rw [getCell_rankRow_SGPA, specSGPA_eq_calcSGPA,
      calcSGPA_rankRow (fun c hc => mem_gradeColsOf hc)]
  · have h : (calculate_sgpa_and_rank scenarioRoster scenarioWeights).rows.map sgpaOf
        = [mkRat 93 25] := by decide
    rw [h]
    norm_num [Rat.mkRat_eq_divInt, Rat.divInt_eq_div]

/-- Witness for C1, instantiated at the ranking scenario's single row. -/
theorem C1_sgpa_formula_witness :
    getCell ((calculate_sgpa_and_rank scenarioRoster scenarioWeights).rows.getD 0 ⟨"", []⟩)
        "SGPA"
      = Cell.num (specSGPA (gradeColsOf scenarioRoster.cols)
          ((calculate_sgpa_and_rank scenarioRoster scenarioWeights).rows.getD 0 ⟨"", []⟩)
          scenarioWeights) :=
  (C1_sgpa_formula scenarioRoster scenarioWeights).1 _ (by decide)

/-- Claim C2: `calculate_sgpa_and_rank` ranks by the minimum method over
SGPA descending — rows with equal SGPA share a rank, a strictly higher SGPA
never receives a larger rank, the next distinct SGPA below a tie group gets
the group's starting rank plus the group's size, and the returned roster is
sorted ascending by rank; in the concrete tie scenario the ranks are
1, 1, 3. -/
theorem C2_rank_minimum (R : Roster) (W : String → Option ℚ) (out : Roster)
    (hout : out = calculate_sgpa_and_rank R W) :
    (∀ r1 ∈ out.rows, ∀ r2 ∈ out.rows, sgpaOf r1 = sgpaOf r2 → rankOf r1 = rankOf r2)
    ∧ (∀ r1 ∈ out.rows, ∀ r2 ∈ out.rows, sgpaOf r2 < sgpaOf r1 → rankOf r1 ≤ rankOf r2)
    ∧ (∀ r1 ∈ out.rows, ∀ r2 ∈ out.rows, sgpaOf r2 < sgpaOf r1 →
        (∀ r ∈ out.rows, ¬(sgpaOf r2 < sgpaOf r ∧ sgpaOf r < sgpaOf r1)) →
        rankOf r2 = rankOf r1
          + ((out.rows.filter (fun r => decide (sgpaOf r = sgpaOf r1))).length : ℤ))
    ∧ out.rows.Pairwise (fun a b => rankOf a ≤ rankOf b)
    ∧ (calculate_sgpa_and_rank tieRoster tieWeights).rows.map rankOf = [1, 1, 3] := by
  subst hout
  have hchar : ∀ r' ∈ (calculate_sgpa_and_rank R W).rows,
      sgpaOf r' ∈ sgpasOf R.cols W R.rows
      ∧ rankOf r' = rankIn (sgpasOf R.cols W R.rows) (sgpaOf r') := by
    intro r' hr'
    rcases mem_compute_rows.mp hr' with ⟨r0, hr0, rfl⟩
    rw [sgpaOf_rankRow, rankOf_rankRow]
    refine ⟨?_, rfl⟩
    rw [sgpasOf]
    exact List.mem_map_of_mem _ hr0
  refine ⟨?_, ?_, ?_, ?_, by decide⟩
  · intro r1 h1 r2 h2 heq
    obtain ⟨_, e1⟩ := hchar r1 h1
    obtain ⟨_, e2⟩ := hchar r2 h2
    rw [e1, e2, heq]
  · intro r1 h1 r2 h2 hlt
    obtain ⟨_, e1⟩ := hchar r1 h1
    obtain ⟨_, e2⟩ := hchar r2 h2
    rw [e1, e2]
    exact rankIn_le hlt
  · intro r1 h1 r2 h2 hlt hbet
    obtain ⟨_, e1⟩ := hchar r1 h1
    obtain ⟨_, e2⟩ := hchar r2 h2
    rw [e1, e2]
    have hb' : ∀ x ∈ sgpasOf R.cols W R.rows, ¬(sgpaOf r2 < x ∧ x < sgpaOf r1) := by
      intro x hx
      rw [sgpasOf] at hx
      rcases List.mem_map.mp hx with ⟨r0, hr0, rfl⟩
      have hmem : rankRow (gradeColsOf R.cols) W (sgpasOf R.cols W R.rows) r0
          ∈ (calculate_sgpa_and_rank R W).rows := mem_compute_rows.mpr ⟨r0, hr0, rfl⟩
      have hr := hbet _ hmem
      rwa [sgpaOf_rankRow] at hr
    have hcount : ((calculate_sgpa_and_rank R W).rows.filter
          (fun r => decide (sgpaOf r = sgpaOf r1))).length
        = (sgpasOf R.cols W R.rows).countP (fun x => decide (x = sgpaOf r1)) := by
      rw [← List.countP_eq_length_filter]
      have hperm : ((calculate_sgpa_and_rank R W).rows).Perm (newRowsOf R.cols W R.rows) := by
        rw [compute_rows]
        exact sortLe_perm _ _
      rw [hperm.countP_eq, newRowsOf, List.countP_map, sgpasOf, List.countP_map]
      exact countP_ext _ _ _ (fun r0 _ => by simp [Function.comp, sgpaOf_rankRow])
    rw [hcount]
    exact rankIn_next hlt hb'
  · rw [compute_rows]
    exact (pairwise_sortLe rowLe_total rowLe_trans _).imp (fun h => of_decide_eq_true h)

/-- Witness for C2: in the tie scenario the two tied rows share a rank. -/
theorem C2_rank_minimum_witness :
    rankOf ((calculate_sgpa_and_rank tieRoster tieWeights).rows.getD 0 ⟨"", []⟩)
      = rankOf ((calculate_sgpa_and_rank tieRoster tieWeights).rows.getD 1 ⟨"", []⟩) :=
  (C2_rank_minimum tieRoster tieWeights _ rfl).1 _ (by decide) _ (by decide) (by decide)

/-- Claim C3 counterexample: with a duplicated student id in the records,
the merged roster has more rows than the input roster (the pandas left merge
expands duplicate keys), so the unconditional row-count guarantee fails. -/
theorem C3_rowcount_counterexample :
    ¬((merge_grades_with_department ⟨[], [⟨"200145A", []⟩]⟩
        [("200145A", "A"), ("200145A", "B")] "CS2023").rows.length
      = (⟨[], [⟨"200145A", []⟩]⟩ : Roster).rows.length) := by decide

/-- Claim C3 (amended): provided each student id occurs at most once among
the records, the merge preserves the row count, the column list is the
input's with exactly the one new column `"<code>_Grade"` appended, and no
existing column's value changes in any row. -/
theorem C3_merge_shape (R : Roster) (g : List (String × String)) (c : String)
    (h : (g.map Prod.fst).Nodup) :
    (merge_grades_with_department R g c).cols = R.cols ++ [c ++ "_Grade"]
    ∧ (merge_grades_with_department R g c).rows.length = R.rows.length
    ∧ ∀ r' ∈ (merge_grades_with_department R g c).rows, ∀ name, name ≠ c ++ "_Grade" →
        ∃ r ∈ R.rows, r'.index = r.index ∧ getCell r' name = getCell r name := by
  refine ⟨rfl, ?_, ?_⟩
  · show (mergeRows g (c ++ "_Grade") R.rows).length = R.rows.length
    rw [mergeRows_map_of_nodup h, List.length_map]
  · intro r' hr' name hname
    have hr'2 : r' ∈ mergeRows g (c ++ "_Grade") R.rows := hr'
    rcases mem_mergeRows.mp hr'2 with ⟨r, hr, hrm⟩
    rcases mergeRow_cases hrm with ⟨rfl, _⟩ | ⟨p, _, _, rfl⟩ <;>
      exact ⟨r, hr, rfl, getCell_extend_ne (Ne.symm hname)⟩

/-- Witness for the amended C3 at a concrete merge. -/
theorem C3_merge_shape_witness :
    (merge_grades_with_department ⟨["Name"], [⟨"200145A", [("Name", Cell.str "X")]⟩]⟩
        [("200145A", "B+")] "CS2023").cols = ["Name", "CS2023_Grade"]
    ∧ (merge_grades_with_department ⟨["Name"], [⟨"200145A", [("Name", Cell.str "X")]⟩]⟩
        [("200145A", "B+")] "CS2023").rows.length = 1 := by
  have h := C3_merge_shape ⟨["Name"], [⟨"200145A", [("Name", Cell.str "X")]⟩]⟩
    [("200145A", "B+")] "CS2023" (by decide)
  exact ⟨h.1, h.2.1⟩

/-- Claim C4: every merged row keeps a roster student's id (records for
students outside the roster never add rows), and its new grade cell is
either a matching record's grade or the `"N/A"` sentinel when no record
matches; the spec's concrete merge scenario evaluates exactly as stated. -/
theorem C4_merge_values (R : Roster) (g : List (String × String)) (c : String) :
    (∀ r' ∈ (merge_grades_with_department R g c).rows,
      (∃ r ∈ R.rows, r'.index = r.index)
      ∧ ((r'.cells.getLast? = some (c ++ "_Grade", Cell.str "N/A")
            ∧ ∀ p ∈ g, p.1 ≠ r'.index)
        ∨ ∃ p ∈ g, p.1 = r'.index
            ∧ r'.cells.getLast? = some (c ++ "_Grade", Cell.str p.2)))
    ∧ merge_grades_with_department mergeScenarioRoster mergeScenarioRecords "CS2023"
      = ⟨["CS2023_Grade"],
         [⟨"200145A", [("CS2023_Grade", Cell.str "B+")]⟩,
          ⟨"200146B", [("CS2023_Grade", Cell.str "N/A")]⟩]⟩ := by
  constructor
  · intro r' hr'
    have hr'2 : r' ∈ mergeRows g (c ++ "_Grade") R.rows := hr'
    rcases mem_mergeRows.mp hr'2 with ⟨r, hr, hrm⟩
    have hidx := mergeRow_index hrm
    refine ⟨⟨r, hr, hidx⟩, ?_⟩
    rcases mergeRow_cases hrm with ⟨rfl, hnone⟩ | ⟨p, hp, hpi, rfl⟩
    · left
      exact ⟨by simp [List.getLast?_concat], hnone⟩
    · right
      exact ⟨p, hp, hpi, by simp [List.getLast?_concat]⟩
  · decide

/-- Witness for C4, instantiated at the unmatched student of the merge
scenario. -/
theorem C4_merge_values_witness :
    (∃ r ∈ mergeScenarioRoster.rows,
        (⟨"200146B", [("CS2023_Grade", Cell.str "N/A")]⟩ : Row).index = r.index)
    ∧ (((⟨"200146B", [("CS2023_Grade", Cell.str "N/A")]⟩ : Row).cells.getLast?
          = some ("CS2023" ++ "_Grade", Cell.str "N/A")
        ∧ ∀ p ∈ mergeScenarioRecords,
            p.1 ≠ (⟨"200146B", [("CS2023_Grade", Cell.str "N/A")]⟩ : Row).index)
      ∨ ∃ p ∈ mergeScenarioRecords,
          p.1 = (⟨"200146B", [("CS2023_Grade", Cell.str "N/A")]⟩ : Row).index
          ∧ (⟨"200146B", [("CS2023_Grade", Cell.str "N/A")]⟩ : Row).cells.getLast?
              = some ("CS2023" ++ "_Grade", Cell.str p.2)) :=
  (C4_merge_values mergeScenarioRoster mergeScenarioRecords "CS2023").1 _ (by decide)

/-- Claim C5 counterexample: with the same student id twice in the records,
the student occupies two rows of the merged roster, not one — there is no
last-write-wins resolution. -/
theorem C5_last_write_counterexample :
    ¬(((merge_grades_with_department ⟨[], [⟨"200145A", []⟩]⟩
          [("200145A", "A"), ("200145A", "B+")] "CS2043").rows.filter
          (fun r => decide (r.index = "200145A"))).length = 1) := by decide

/-- Claim C5 (amended): for a student occupying exactly one roster row, the
merge produces one output row per matching record — each holding that
record's grade, in record order — and a single `"N/A"` row when no record
matches; duplicates are expanded, not resolved last-write-wins. -/
theorem C5_duplicates_expand (R : Roster) (g : List (String × String)) (c i : String)
    (h : (R.rows.filter (fun r => decide (r.index = i))).length = 1) :
    ((merge_grades_with_department R g c).rows.filter
        (fun r => decide (r.index = i))).length
      = max 1 (g.countP (fun p => decide (p.1 = i)))
    ∧ ((merge_grades_with_department R g c).rows.filter
          (fun r => decide (r.index = i))).map (fun r => r.cells.getLast?)
      = (if g.countP (fun p => decide (p.1 = i)) = 0
          then [some (c ++ "_Grade", Cell.str "N/A")]
          else (g.filter (fun p => decide (p.1 = i))).map
                (fun p => some (c ++ "_Grade", Cell.str p.2))) := by
  obtain ⟨r, hr⟩ := List.length_eq_one.mp h
  have hri : r.index = i := by
    have hmem : r ∈ R.rows.filter (fun r => decide (r.index = i)) := by
      rw [hr]
      exact List.mem_singleton.mpr rfl
    exact of_decide_eq_true (List.mem_filter.mp hmem).2
  have hfilter : (merge_grades_with_department R g c).rows.filter
      (fun r => decide (r.index = i)) = mergeRow g (c ++ "_Grade") r := by
    show (mergeRows g (c ++ "_Grade") R.rows).filter _ = _
    rw [mergeRows_filter_index, hr, mergeRows_cons]
    simp [mergeRows]
  rw [hfilter]
  have hc : g.countP (fun p => decide (p.1 = i))
      = (g.filter (fun p => decide (p.1 = i))).length :=
    List.countP_eq_length_filter _ _
  cases hf : g.filter (fun p => decide (p.1 = r.index)) with
  | nil =>
    have hf' : g.filter (fun p => decide (p.1 = i)) = [] := by rw [← hri]; exact hf
    constructor
    · simp [mergeRow, hf, hc, hf']
    · simp [mergeRow, hf, hc, hf', List.getLast?_concat]
  | cons q t =>
    have hf' : g.filter (fun p => decide (p.1 = i)) = q :: t := by rw [← hri]; exact hf
    constructor
    · simp only [mergeRow, hf, hc, hf', List.length_map, List.length_cons]
      omega
    · simp [mergeRow, hf, hc, hf', List.map_map, Function.comp, List.getLast?_concat]

/-- Witness for the amended C5 at a duplicated record pair. -/
theorem C5_duplicates_expand_witness :
    ((merge_grades_with_department ⟨[], [⟨"200145A", []⟩]⟩
        [("200145A", "A"), ("200145A", "B+")] "CS2023").rows.filter
        (fun r => decide (r.index = "200145A"))).length
      = max 1 (([("200145A", "A"), ("200145A", "B+")] : List (String × String)).countP
          (fun p => decide (p.1 = "200145A"))) :=
  (C5_duplicates_expand ⟨[], [⟨"200145A", []⟩]⟩ [("200145A", "A"), ("200145A", "B+")]
    "CS2023" "200145A" (by decide)).1

/-- Claim C10: with unique record ids, the merge preserves the roster's row
order position for position — row `idx` of the output is row `idx` of the
input with exactly the new grade cell appended. -/
theorem C10_merge_row_order (R : Roster) (g : List (String × String)) (c : String)
    (h : (g.map Prod.fst).Nodup) :
    (merge_grades_with_department R g c).rows.length = R.rows.length
    ∧ ∀ (idx : Nat) (r0 : Row), R.rows[idx]? = some r0 →
        (merge_grades_with_department R g c).rows[idx]?
          = some ⟨r0.index, r0.cells ++ [(c ++ "_Grade", Cell.str (gradeFor g r0.index))]⟩ := by
  have hrows : (merge_grades_with_department R g c).rows
      = R.rows.map (extendMerge g (c ++ "_Grade")) := mergeRows_map_of_nodup h _ R.rows
  constructor
  · rw [hrows, List.length_map]
  · intro idx r0 h0
    rw [hrows, List.getElem?_map, h0]
    rfl

/-- Witness for C10 at the merge scenario's second row. -/
theorem C10_merge_row_order_witness :
    (merge_grades_with_department mergeScenarioRoster mergeScenarioRecords
        "CS2023").rows[1]?
      = some ⟨"200146B", [] ++ [("CS2023" ++ "_Grade",
          Cell.str (gradeFor mergeScenarioRecords "200146B"))]⟩ :=
  (C10_merge_row_order mergeScenarioRoster mergeScenarioRecords "CS2023"
    (by decide)).2 1 ⟨"200146B", []⟩ (by decide)

/-- Claim C6 (code-bug evidence): the order-insensitive part of the
idempotence claim, valid for any sort kind — running
`calculate_sgpa_and_rank` on its own output with the same weights keeps the
column list unchanged, returns the same rows up to order, and rewriting the
derived cells of any output row is the identity: the recomputed `SGPA` and
`Rank` values are bit-identical and no pre-existing `SGPA`/`Rank` value is
read.  Exact equality of the two outputs would additionally need
`df.sort_values('Rank')` to be stable, which pandas' default
`kind='quicksort'` is not: a tied block of 17 or more equal ranks is
permuted, so the tied rows of the second run come back in a different
order. -/
theorem C6_compute_value_idempotent (R : Roster) (W : String → Option ℚ) :
    (calculate_sgpa_and_rank (calculate_sgpa_and_rank R W) W).cols
      = (calculate_sgpa_and_rank R W).cols
    ∧ ((calculate_sgpa_and_rank (calculate_sgpa_and_rank R W) W).rows).Perm
        ((calculate_sgpa_and_rank R W).rows)
    ∧ ∀ r' ∈ (calculate_sgpa_and_rank R W).rows,
        rankRow (gradeColsOf (calculate_sgpa_and_rank R W).cols) W
          (sgpasOf (calculate_sgpa_and_rank R W).cols W
            (calculate_sgpa_and_rank R W).rows) r' = r' := by
  have hS : "SGPA" ∈ (calculate_sgpa_and_rank R W).cols := by
    rw [compute_cols]
    exact mem_addCol_of_mem _ (mem_addCol_self _ _)
  have hR : "Rank" ∈ (calculate_sgpa_and_rank R W).cols := by
    rw [compute_cols]
    exact mem_addCol_self _ _
  have hcols2 : addCol (addCol (calculate_sgpa_and_rank R W).cols "SGPA") "Rank"
      = (calculate_sgpa_and_rank R W).cols := by
    rw [addCol_of_mem hS, addCol_of_mem hR]
  have hgc : gradeColsOf (calculate_sgpa_and_rank R W).cols = gradeColsOf R.cols := by
    rw [compute_cols, gradeColsOf_addCol (by decide), gradeColsOf_addCol (by decide)]
  have hperm : ((calculate_sgpa_and_rank R W).rows).Perm (newRowsOf R.cols W R.rows) := by
    rw [compute_rows]
    exact sortLe_perm _ _
  have hcalc : ∀ r' ∈ (calculate_sgpa_and_rank R W).rows,
      calcSGPA (gradeColsOf R.cols) r' W = sgpaOf r' := by
    intro r' hr'
    rcases mem_compute_rows.mp hr' with ⟨r0, hr0, rfl⟩
    rw [sgpaOf_rankRow, calcSGPA_rankRow (fun c hc => mem_gradeColsOf hc)]
  have hsg2 : sgpasOf (calculate_sgpa_and_rank R W).cols W
        (calculate_sgpa_and_rank R W).rows
      = ((calculate_sgpa_and_rank R W).rows).map sgpaOf := by
    rw [sgpasOf, hgc]
    exact List.map_congr_left hcalc
  have hperm2 : (sgpasOf (calculate_sgpa_and_rank R W).cols W
        (calculate_sgpa_and_rank R W).rows).Perm (sgpasOf R.cols W R.rows) := by
    rw [hsg2]
    have h1 : (((calculate_sgpa_and_rank R W).rows).map sgpaOf).Perm
        ((newRowsOf R.cols W R.rows).map sgpaOf) := hperm.map sgpaOf
    rwa [map_sgpaOf_newRowsOf] at h1
  have hfix : ∀ r' ∈ (calculate_sgpa_and_rank R W).rows,
      rankRow (gradeColsOf (calculate_sgpa_and_rank R W).cols) W
        (sgpasOf (calculate_sgpa_and_rank R W).cols W (calculate_sgpa_and_rank R W).rows)
        r' = r' := by
    intro r' hr'
    rcases mem_compute_rows.mp hr' with ⟨r0, hr0, hr0eq⟩
    have hcalc' : calcSGPA (gradeColsOf (calculate_sgpa_and_rank R W).cols) r' W
        = calcSGPA (gradeColsOf R.cols) r0 W := by
      rw [hgc, ← hr0eq, calcSGPA_rankRow (fun c hc => mem_gradeColsOf hc)]
    have hrank' : rankIn (sgpasOf (calculate_sgpa_and_rank R W).cols W
          (calculate_sgpa_and_rank R W).rows) (calcSGPA (gradeColsOf R.cols) r0 W)
        = rankIn (sgpasOf R.cols W R.rows) (calcSGPA (gradeColsOf R.cols) r0 W) :=
      rankIn_perm hperm2 _
    rw [rankRow, hcalc', hrank']
    have hlookS : lookupCell r'.cells "SGPA"
        = some (Cell.num (calcSGPA (gradeColsOf R.cols) r0 W)) := by
      rw [← hr0eq]
      exact lookupCell_rankRow_SGPA _ _ _ _
    have hlookR : lookupCell r'.cells "Rank"
        = some (Cell.int (rankIn (sgpasOf R.cols W R.rows)
            (calcSGPA (gradeColsOf R.cols) r0 W))) := by
      rw [← hr0eq]
      exact lookupCell_rankRow_Rank _ _ _ _
    rw [setCell_eq_self hlookS, setCell_eq_self hlookR]
  have hrows2 : newRowsOf (calculate_sgpa_and_rank R W).cols W
      (calculate_sgpa_and_rank R W).rows = (calculate_sgpa_and_rank R W).rows := by
    rw [newRowsOf]
    have h1 : ((calculate_sgpa_and_rank R W).rows).map
        (rankRow (gradeColsOf (calculate_sgpa_and_rank R W).cols) W
          (sgpasOf (calculate_sgpa_and_rank R W).cols W (calculate_sgpa_and_rank R W).rows))
        = ((calculate_sgpa_and_rank R W).rows).map (fun x => x) :=
      List.map_congr_left hfix
    rw [h1]
    exact List.map_id' _
  refine ⟨hcols2, ?_, hfix⟩
  show (sortLe rowLe (newRowsOf (calculate_sgpa_and_rank R W).cols W
      (calculate_sgpa_and_rank R W).rows)).Perm ((calculate_sgpa_and_rank R W).rows)
  rw [hrows2]
  exact sortLe_perm _ _

/-- Witness for the C6 evidence theorem: rewriting the derived cells of the
first output row of the tie scenario is the identity. -/
theorem C6_compute_value_idempotent_witness :
    rankRow (gradeColsOf (calculate_sgpa_and_rank tieRoster tieWeights).cols) tieWeights
      (sgpasOf (calculate_sgpa_and_rank tieRoster tieWeights).cols tieWeights
        (calculate_sgpa_and_rank tieRoster tieWeights).rows)
      ((calculate_sgpa_and_rank tieRoster tieWeights).rows.getD 0 ⟨"", []⟩)
      = (calculate_sgpa_and_rank tieRoster tieWeights).rows.getD 0 ⟨"", []⟩ :=
  (C6_compute_value_idempotent tieRoster tieWeights).2.2 _ (by decide)

theorem matchIdxNo_length {cs rest : List Char} {i : String}
    (h : matchIdxNo cs = some (i, rest)) : rest.length < cs.length := by
  unfold matchIdxNo at h
  split at h
  · split at h
    · simp only [Option.some.injEq, Prod.mk.injEq] at h
      obtain ⟨-, rfl⟩ := h
      simp
      omega
    · exact absurd h (by simp)
  · exact absurd h (by simp)

theorem dropWhile_length_le {α : Type} (p : α → Bool) :
    ∀ l : List α, (l.dropWhile p).length ≤ l.length := by
  intro l
  induction l with
  | nil => simp [List.dropWhile]
  | cons c t ih =>
    rw [List.dropWhile_cons]
    split
    · simp
      omega
    · simp

theorem matchGrade_length {cs rest : List Char} {g : String}
    (h : matchGrade cs = some (g, rest)) : rest.length < cs.length := by
  unfold matchGrade at h
  split at h
  · simp only [Option.some.injEq, Prod.mk.injEq] at h
    obtain ⟨-, rfl⟩ := h
    simp
    omega
  · simp only [Option.some.injEq, Prod.mk.injEq] at h
    obtain ⟨-, rfl⟩ := h
    simp
    omega
  · split at h
    · split at h
      · split at h
        · simp only [Option.some.injEq, Prod.mk.injEq] at h
          obtain ⟨-, rfl⟩ := h
          simp
          omega
        · simp only [Option.some.injEq, Prod.mk.injEq] at h
          obtain ⟨-, rfl⟩ := h
          simp
      · simp only [Option.some.injEq, Prod.mk.injEq] at h
        obtain ⟨-, rfl⟩ := h
        simp
    · exact absurd h (by simp)
  · exact absurd h (by simp)

theorem matchRecord_length {cs rest2 : List Char} {i g : String}
    (h : matchRecord cs = some (i, g, rest2)) : rest2.length < cs.length := by
  unfold matchRecord at h
  cases hidx : matchIdxNo cs with
  | none =>
    rw [hidx] at h
    exact absurd h (by simp)
  | some p =>
    obtain ⟨idx, rest⟩ := p
    rw [hidx] at h
    cases rest with
    | nil => exact absurd h (by simp)
    | cons c0 cr =>
      simp only at h
      split at h
      · cases hgr : matchGrade ((c0 :: cr).dropWhile isSpaceC) with
        | none =>
          rw [hgr] at h
          exact absurd h (by simp)
        | some q =>
          obtain ⟨g2, rest3⟩ := q
          rw [hgr] at h
          simp only [Option.some.injEq, Prod.mk.injEq] at h
          obtain ⟨-, -, rfl⟩ := h
          have h1 := matchGrade_length hgr
          have h2 : ((c0 :: cr).dropWhile isSpaceC).length ≤ (c0 :: cr).length :=
            dropWhile_length_le _ _
          have h3 := matchIdxNo_length hidx
          omega
      · exact absurd h (by simp)

/-- Fuel irrelevance for the scanner: any fuel of at least the text length
gives the same record list, so `parse_grades`' choice of `length` as the
fuel is immaterial — the scanner never runs out. -/
theorem parseGradesAux_fuel :
    ∀ (n : Nat) (cs : List Char) (f1 f2 : Nat), cs.length ≤ n →
      cs.length ≤ f1 → cs.length ≤ f2 →
      parseGradesAux f1 cs = parseGradesAux f2 cs := by
  intro n
  induction n with
  | zero =>
    intro cs f1 f2 h0 _ _
    have hnil : cs = [] := List.length_eq_zero.mp (Nat.le_zero.mp h0)
    subst hnil
    cases f1 <;> cases f2 <;> rfl
  | succ n ih =>
    intro cs f1 f2 h0 h1 h2
    cases cs with
    | nil => cases f1 <;> cases f2 <;> rfl
    | cons c rest =>
      simp only [List.length_cons] at h0 h1 h2
      cases f1 with
      | zero => omega
      | succ g1 =>
        cases f2 with
        | zero => omega
        | succ g2 =>
          simp only [parseGradesAux]
          cases hm : matchRecord (c :: rest) with
          | some p =>
            obtain ⟨i, g, rest2⟩ := p
            have hlen := matchRecord_length hm
            simp only [List.length_cons] at hlen
            show (i, g) :: parseGradesAux g1 rest2 = (i, g) :: parseGradesAux g2 rest2
            rw [ih rest2 g1 g2 (by omega) (by omega) (by omega)]
          | none =>
            show parseGradesAux g1 rest = parseGradesAux g2 rest
            exact ih rest g1 g2 (by omega) (by omega) (by omega)

/-- Claim C7 (code-bug evidence): the grade regex
`(I-we|I-ca|[A-Z][+-]?|F|D)` can never produce the `"AB"` grade — the line
`"200145A AB"` parses as grade `"A"` (worth 4.0 in `GRADE_POINTS`, while
the config assigns `"AB"` the value 0.0) — and it emits symbols outside the
fixed grade set, such as `"Z+"`. -/
theorem C7_parse_grades_eval :
    parse_grades "200145A AB" = [("200145A", "A")]
    ∧ GRADE_POINTS "AB" = some 0
    ∧ GRADE_POINTS "A" = some 4
    ∧ parse_grades "200145A Z+" = [("200145A", "Z+")]
    ∧ GRADE_POINTS "Z+" = none := by decide

theorem findHeader_eq_none {cs : List Char} (h : findCode cs = none) :
    findHeader cs = none := by
  induction cs with
  | nil => rfl
  | cons c rest ih =>
    cases hm : matchModCode (c :: rest) with
    | some p =>
      obtain ⟨code, rest2⟩ := p
      simp only [findCode, hm] at h
      exact absurd h (by simp)
    | none =>
      simp only [findCode, hm] at h
      simp only [findHeader, matchHeaderAt, hm]
      exact ih h

/-- Claim C8: module detection follows the three-stage fallback — the
header pattern yields code and trimmed name (concretely,
`"CS2023 - Data Structures\nIntake ..."` gives
`("CS2023", "Data Structures")`); with no code pattern anywhere the result
is `("Unknown", "Unknown Module")`; with a bare code but no header the name
is `"Unknown Module"`. -/
theorem C8_module_fallback :
    extract_module_info "CS2023 - Data Structures\nIntake 2020"
      = ("CS2023", "Data Structures")
    ∧ (∀ t : String, ∀ c n, findHeader t.data = some (c, n) →
        extract_module_info t = (pyStrip c, pyStrip n))
    ∧ (∀ t : String, findCode t.data = none →
        extract_module_info t = ("Unknown", "Unknown Module"))
    ∧ (∀ t : String, findHeader t.data = none → ∀ c, findCode t.data = some c →
        extract_module_info t = (c, "Unknown Module")) := by
  refine ⟨by decide, ?_, ?_, ?_⟩
  · intro t c n hh
    rw [extract_module_info, hh]
  · intro t h
    rw [extract_module_info, findHeader_eq_none h, h]
  · intro t hh c hc
    rw [extract_module_info, hh, hc]

/-- Witness for C8 on text with no module code at all. -/
theorem C8_module_fallback_witness :
    extract_module_info "hello world" = ("Unknown", "Unknown Module") :=
  C8_module_fallback.2.2.1 "hello world" (by decide)

/-- Claim C9: when the extracted text is empty or contains no grade
record, document processing yields no grades table and the app step leaves
the roster untouched — the merge is never invoked. -/
theorem C9_unparseable_no_merge (R : Roster) (processed : List String) (t : String)
    (h : t = "" ∨ parse_grades t = []) :
    app_add_result R processed t = R ∧ (process_pdf_text t).1 = none := by
  have hnone : (process_pdf_text t).1 = none := by
    rcases h with rfl | hp
    · simp [process_pdf_text]
    · by_cases ht : t = ""
      · subst ht
        simp [process_pdf_text]
      · simp [process_pdf_text, ht, hp]
  refine ⟨?_, hnone⟩
  have h1 : process_pdf_text t
      = (none, (process_pdf_text t).2.1, (process_pdf_text t).2.2) := by
    rw [← hnone]
  rw [app_add_result, h1]

/-- Witness for C9 on text with no grade records. -/
theorem C9_unparseable_no_merge_witness :
    app_add_result mergeScenarioRoster [] "no grades in this text" = mergeScenarioRoster
    ∧ (process_pdf_text "no grades in this text").1 = none :=
  C9_unparseable_no_merge mergeScenarioRoster [] "no grades in this text"
    (Or.inr (by decide))

end UOM
